import Mathlib

/-!
Shallow embedding of `src/clean_data.py` (BayesBets): normalization of
Betfair streaming dumps into event tables and first-wins reference tables.

Modelling conventions:
* A decoded JSON scalar is a `JVal` (bool, number, string); Python
  truthiness of such a value is `JVal.truthy`.
* `dict.get(k)` on an optional field is an `Option` field; both an absent
  key and an explicit null yield `none`.
* `pd.to_datetime` is kept abstract as the tagged wrapper `PTime`
  (`ofMillis` for `unit="ms"` conversion of the `pt` column, `ofVal` for
  conversion of a raw value such as `removalDate`/`marketTime`).
* pandas `sort_values` on several columns is `np.lexsort`, a stable sort by
  the lexicographic key; it places nulls last, so the sort key of an
  optional column is `WithTop` of the column key.
* pandas `drop_duplicates(subset=ks)` (default `keep="first"`) is
  `dedupKeepFirst` below.
-/

/-- A decoded JSON scalar value carried through the pipeline. -/
inductive JVal where
  | jbool (b : Bool)
  | jnum (q : ℚ)
  | jstr (s : String)
deriving DecidableEq

/-- Python truthiness of a JSON scalar (`if v:`). -/
def JVal.truthy : JVal → Bool
  | .jbool b => b
  | .jnum q => decide (q ≠ 0)
  | .jstr s => decide (s ≠ "")

/-- Python truthiness of an optional value (`None` is falsy). -/
def optTruthy : Option JVal → Bool
  | none => false
  | some v => v.truthy

/-- Sort key of a `JVal` for pandas column comparison. -/
abbrev JKey := Bool ⊕ₗ ℚ ⊕ₗ String

def JVal.sortKey : JVal → JKey
  | .jbool b => toLex (Sum.inl b)
  | .jnum q => toLex (Sum.inr (toLex (Sum.inl q)))
  | .jstr s => toLex (Sum.inr (toLex (Sum.inr s)))

/-- Result of a `pd.to_datetime` conversion, kept abstract. -/
inductive PTime where
  | ofMillis (ms : ℤ)
  | ofVal (v : JVal)
deriving DecidableEq

abbrev PKey := ℤ ⊕ₗ JKey

def PTime.sortKey : PTime → PKey
  | .ofMillis ms => toLex (Sum.inl ms)
  | .ofVal v => toLex (Sum.inr v.sortKey)

/-- Sort key of an optional column value; pandas puts nulls last. -/
def optKey {α β : Type} (f : α → β) : Option α → WithTop β
  | none => ⊤
  | some a => (f a : WithTop β)

/-- Lexicographic pandas sort key for the `["market_id", "publish_time"]`
`sort_values` calls. -/
abbrev RowKey := (WithTop JKey) ×ₗ (WithTop PKey)

def rowKey (mid : Option JVal) (pub : Option PTime) : RowKey :=
  toLex (optKey JVal.sortKey mid, optKey PTime.sortKey pub)

/-- One entry of `marketDefinition["runners"]`. -/
structure RunnerDef where
  id : Option JVal
  name : Option JVal
  status : Option JVal
  removalDate : Option JVal
deriving DecidableEq

/-- The `marketDefinition` object of a block (fields the code reads). -/
structure MarketDefinition where
  status : Option JVal
  inPlay : Option JVal
  numberOfActiveRunners : Option JVal
  totalMatched : Option JVal
  version : Option JVal
  eventId : Option JVal
  eventName : Option JVal
  eventTypeId : Option JVal
  name : Option JVal
  marketType : Option JVal
  marketTime : Option JVal
  venue : Option JVal
  countryCode : Option JVal
  numberOfWinners : Option JVal
  runners : Option (List RunnerDef)
deriving DecidableEq

/-- A best-available ladder entry list, carried as plain data. -/
abbrev Ladder := List (List ℚ)

/-- One entry of a block's `rc` change list. -/
structure RunnerChange where
  id : Option JVal
  ltp : Option JVal
  tv : Option JVal
  batb : Option Ladder
  batl : Option Ladder
  spn : Option JVal
  spf : Option JVal
deriving DecidableEq

/-- One market-change block (`mc` entry). `marketDefinition = none` /
`rc = none` model the `"marketDefinition" in market` / `"rc" in market`
membership tests failing. -/
structure MarketChangeBlock where
  id : Option JVal
  marketDefinition : Option MarketDefinition
  rc : Option (List RunnerChange)
deriving DecidableEq

/-- The raw `mc` cell of a record: the column may be absent (`hasattr`
fails), null (`pd.isna` is true), a single object, or a list. -/
inductive McField where
  | absent
  | null
  | single (b : MarketChangeBlock)
  | many (bs : List MarketChangeBlock)
deriving DecidableEq

/-- One decoded line (row of the raw DataFrame). `pt = none` models an
absent `pt` column; otherwise `pt` is the epoch-millisecond value. -/
structure RawRecord where
  pt : Option ℤ
  mc : McField
deriving DecidableEq

/-- `parse_betfair_stream` lines 26-37: coerce the `mc` cell to a list of
blocks; an absent or null cell, and an empty list, contribute no blocks. -/
def coerceMc : McField → List MarketChangeBlock
  | .absent => []
  | .null => []
  | .single b => [b]
  | .many bs => bs

/-- Line 39: `pd.to_datetime(row.pt, unit="ms") if hasattr(row, "pt") else None`,
computed once per record. -/
def publishTimeOf (r : RawRecord) : Option PTime :=
  r.pt.map PTime.ofMillis

/-- Lines 70-74: `pd.to_datetime(runner.get("removalDate")) if
runner.get("removalDate") else None`. -/
def parseRemovalDate (v : Option JVal) : Option PTime :=
  if optTruthy v then v.map PTime.ofVal else none

/-- A row of the `market_records` stream (MarketDefinitionSnapshot). -/
structure MarketRecord where
  market_id : Option JVal
  publish_time : Option PTime
  status : Option JVal
  in_play : Option JVal
  number_of_active_runners : Option JVal
  total_matched : Option JVal
  version : Option JVal
deriving DecidableEq

/-- A row of the `runner_static_records` stream (RunnerDefinitionSnapshot). -/
structure RunnerStaticRecord where
  market_id : Option JVal
  publish_time : Option PTime
  runner_id : Option JVal
  runner_name : Option JVal
  status : Option JVal
  removal_date : Option PTime
deriving DecidableEq

/-- A row of the `runner_change_records` stream (RunnerPriceChange). -/
structure RunnerChangeRecord where
  market_id : Option JVal
  publish_time : Option PTime
  runner_id : Option JVal
  ltp : Option JVal
  tv : Option JVal
  batb : Option Ladder
  batl : Option Ladder
  spn : Option JVal
  spf : Option JVal
deriving DecidableEq

/-- Lines 44-59: the MarketDefinitionSnapshot rows a single block appends. -/
def marketRowsOfBlock (pub : Option PTime) (b : MarketChangeBlock) :
    List MarketRecord :=
  match b.marketDefinition with
  | none => []
  | some d =>
      [{ market_id := b.id
         publish_time := pub
         status := d.status
         in_play := d.inPlay
         number_of_active_runners := d.numberOfActiveRunners
         total_matched := d.totalMatched
         version := d.version }]

/-- Lines 61-76: the RunnerDefinitionSnapshot rows a single block appends. -/
def runnerRowsOfBlock (pub : Option PTime) (b : MarketChangeBlock) :
    List RunnerStaticRecord :=
  match b.marketDefinition with
  | none => []
  | some d =>
      match d.runners with
      | none => []
      | some rs =>
          rs.map fun r =>
            { market_id := b.id
              publish_time := pub
              runner_id := r.id
              runner_name := r.name
              status := r.status
              removal_date := parseRemovalDate r.removalDate }

/-- Lines 78-92: the RunnerPriceChange rows a single block appends. -/
def changeRowsOfBlock (pub : Option PTime) (b : MarketChangeBlock) :
    List RunnerChangeRecord :=
  match b.rc with
  | none => []
  | some cs =>
      cs.map fun c =>
        { market_id := b.id
          publish_time := pub
          runner_id := c.id
          ltp := c.ltp
          tv := c.tv
          batb := c.batb
          batl := c.batl
          spn := c.spn
          spf := c.spf }

/-- The three streams of rows one record contributes. -/
def recordRows (r : RawRecord) :
    List MarketRecord × List RunnerStaticRecord × List RunnerChangeRecord :=
  let blocks := coerceMc r.mc
  let pub := publishTimeOf r
  ((blocks.map (marketRowsOfBlock pub)).flatten,
   (blocks.map (runnerRowsOfBlock pub)).flatten,
   (blocks.map (changeRowsOfBlock pub)).flatten)

/-- Lines 17-98: `parse_betfair_stream`, the per-record loop appending to
the three row buffers (an empty frame yields three empty tables). -/
def parse_betfair_stream (df : List RawRecord) :
    List MarketRecord × List RunnerStaticRecord × List RunnerChangeRecord :=
  ((df.map fun r => (recordRows r).1).flatten,
   (df.map fun r => (recordRows r).2.1).flatten,
   (df.map fun r => (recordRows r).2.2).flatten)

/-- A row of the `market_metadata` list (MarketReference). -/
structure MarketRefRow where
  market_id : Option JVal
  event_id : Option JVal
  event_name : Option JVal
  event_type_id : Option JVal
  market_name : Option JVal
  market_type : Option JVal
  market_time : Option PTime
  venue : Option JVal
  country_code : Option JVal
  number_of_winners : Option JVal
deriving DecidableEq

/-- A row of the `runner_metadata` list (RunnerReference). -/
structure RunnerRefRow where
  market_id : Option JVal
  runner_id : Option JVal
  runner_name : Option JVal
deriving DecidableEq

/-- Lines 138-141: `pd.to_datetime(mkt_def.get("marketTime")) if
mkt_def.get("marketTime") else None`. -/
def parseMarketTime (v : Option JVal) : Option PTime :=
  if optTruthy v then v.map PTime.ofVal else none

/-- Lines 123-147: the MarketReference rows one block appends (none unless
the block carries a `marketDefinition`). -/
def marketMetaOfBlock (b : MarketChangeBlock) : List MarketRefRow :=
  match b.marketDefinition with
  | none => []
  | some d =>
      [{ market_id := b.id
         event_id := d.eventId
         event_name := d.eventName
         event_type_id := d.eventTypeId
         market_name := d.name
         market_type := d.marketType
         market_time := parseMarketTime d.marketTime
         venue := d.venue
         country_code := d.countryCode
         number_of_winners := d.numberOfWinners }]

/-- Lines 149-157: the RunnerReference rows one block appends. -/
def runnerMetaOfBlock (b : MarketChangeBlock) : List RunnerRefRow :=
  match b.marketDefinition with
  | none => []
  | some d =>
      match d.runners with
      | none => []
      | some rs =>
          rs.map fun r =>
            { market_id := b.id
              runner_id := r.id
              runner_name := r.name }

/-- The `market_metadata` buffer after the scan of lines 105-147: all
MarketReference rows in file/record/block traversal order (an empty frame
contributes nothing, exactly as the `df.empty` `continue`). -/
def marketMetaRows (dfs : List (List RawRecord)) : List MarketRefRow :=
  ((dfs.flatten).map fun r => ((coerceMc r.mc).map marketMetaOfBlock).flatten).flatten

/-- The `runner_metadata` buffer after the scan of lines 105-157. -/
def runnerMetaRows (dfs : List (List RawRecord)) : List RunnerRefRow :=
  ((dfs.flatten).map fun r => ((coerceMc r.mc).map runnerMetaOfBlock).flatten).flatten

/-- pandas `drop_duplicates(subset, keep="first")`: keep the first row for
each key, in order, dropping every later row with a key already seen. -/
def dedupAux {α κ : Type} [DecidableEq κ] (key : α → κ) :
    List κ → List α → List α
  | _, [] => []
  | seen, x :: xs =>
      if key x ∈ seen then dedupAux key seen xs
      else x :: dedupAux key (key x :: seen) xs

def dedupKeepFirst {α κ : Type} [DecidableEq κ] (key : α → κ) (l : List α) :
    List α :=
  dedupAux key [] l

/-- Lines 159-170: `create_reference_tables`, deduplicating the two
metadata buffers by `market_id` resp. `(market_id, runner_id)` (an empty
buffer yields an empty frame, which `drop_duplicates` also yields). -/
def create_reference_tables (dfs : List (List RawRecord)) :
    List MarketRefRow × List RunnerRefRow :=
  (dedupKeepFirst (fun r => r.market_id) (marketMetaRows dfs),
   dedupKeepFirst (fun r => (r.market_id, r.runner_id)) (runnerMetaRows dfs))

/-- pandas `df.sort_values(cols)` for a multi-column key: `np.lexsort`, a
stable ascending sort by the lexicographic key. -/
def keyLe {α : Type} (key : α → RowKey) (a b : α) : Bool :=
  decide (key a ≤ key b)

def sortOn {α : Type} (key : α → RowKey) (l : List α) : List α :=
  l.mergeSort (keyLe key)

def MarketRecord.sortKey (x : MarketRecord) : RowKey :=
  rowKey x.market_id x.publish_time

def RunnerStaticRecord.sortKey (x : RunnerStaticRecord) : RowKey :=
  rowKey x.market_id x.publish_time

def RunnerChangeRecord.sortKey (x : RunnerChangeRecord) : RowKey :=
  rowKey x.market_id x.publish_time

/-- The `drop_duplicates` subset key of line 273. -/
def mDedupKey (x : MarketRecord) :
    Option JVal × Option JVal × Option JVal × Option JVal :=
  (x.market_id, x.status, x.in_play, x.version)

/-- The `drop_duplicates` subset key of line 278. -/
def rDedupKey (x : RunnerStaticRecord) :
    Option JVal × Option JVal × Option JVal :=
  (x.market_id, x.runner_id, x.status)

/-- Lines 262-274: concatenate the month's market chunks, then
deduplicate by `(market_id, status, in_play, version)` keeping the first
row and sort by `(market_id, publish_time)`; an empty concatenation is
left as the empty frame. -/
def combined_markets (ams : List (List MarketRecord)) : List MarketRecord :=
  let j := ams.flatten
  if j.isEmpty then [] else sortOn MarketRecord.sortKey (dedupKeepFirst mDedupKey j)

/-- Lines 265-279: the same for the runner-status chunks, with key
`(market_id, runner_id, status)`. -/
def combined_runner_static (ars : List (List RunnerStaticRecord)) :
    List RunnerStaticRecord :=
  let j := ars.flatten
  if j.isEmpty then [] else sortOn RunnerStaticRecord.sortKey (dedupKeepFirst rDedupKey j)

/-- Lines 246-248: one day's flushed price table — the concatenation of
the day's collected chunks, stably sorted by `(market_id, publish_time)`. -/
def dailyPrices (chunks : List (List RunnerChangeRecord)) :
    List RunnerChangeRecord :=
  sortOn RunnerChangeRecord.sortKey chunks.flatten

/-- Lines 6-14: the outcome of the `pd.read_json` attempt inside
`read_betfair_bz2` — either the decoded frame or an exception message. -/
inductive DecodeOutcome where
  | decoded (records : List RawRecord)
  | failed (msg : String)
deriving DecidableEq

/-- Lines 6-14: `read_betfair_bz2` returns the decoded frame, or an empty
frame when the read raised; the exception is caught, never re-raised. -/
def read_betfair_bz2 : DecodeOutcome → List RawRecord
  | .decoded rs => rs
  | .failed _ => []

/-- One `.bz2` source file as seen by the `process_month` loop.
`parseRaises = true` models a frame whose contents lie outside the
well-formed record shape in a way only `parse_betfair_stream` touches
(e.g. an out-of-range `pt` that `pd.to_datetime` rejects, or a non-list
`rc` value), so that line 233 raises into the `except` of line 242 while
the reference scan of the same frame does not. -/
structure SourceFile where
  decode : DecodeOutcome
  parseRaises : Bool
deriving DecidableEq

/-- The month-level accumulators of lines 211-213. -/
structure MonthAcc where
  all_markets : List (List MarketRecord)
  all_runner_static : List (List RunnerStaticRecord)
  all_raw_dfs : List (List RawRecord)
deriving DecidableEq

/-- Lines 226-244: processing of one file inside the day loop. The state is
the month accumulators together with the day's `day_runner_changes`
buffer. The raw frame is appended (line 232) before parsing (line 233), so
a parse exception leaves it retained; the `except` then skips the file. -/
def processFile (st : MonthAcc × List (List RunnerChangeRecord))
    (f : SourceFile) : MonthAcc × List (List RunnerChangeRecord) :=
  let df := read_betfair_bz2 f.decode
  if df.isEmpty then st
  else
    let acc := { st.1 with all_raw_dfs := st.1.all_raw_dfs ++ [df] }
    if f.parseRaises then (acc, st.2)
    else
      let parsed := parse_betfair_stream df
      ({ acc with
          all_markets :=
            if parsed.1.isEmpty then acc.all_markets
            else acc.all_markets ++ [parsed.1]
          all_runner_static :=
            if parsed.2.1.isEmpty then acc.all_runner_static
            else acc.all_runner_static ++ [parsed.2.1] },
       if parsed.2.2.isEmpty then st.2 else st.2 ++ [parsed.2.2])

/-- One day's file loop (lines 222-244), starting from an empty
`day_runner_changes` buffer. Batching by 100 only chunks the same
iteration order, so the loop is modelled flat. -/
def runDayFiles (acc : MonthAcc) (files : List SourceFile) :
    MonthAcc × List (List RunnerChangeRecord) :=
  files.foldl processFile (acc, [])

/-- Lines 215-256: one day — run its files, then flush the day's buffer as
one sorted table when nonempty (the buffer itself is then discarded). The
second component is the list of daily tables written so far. -/
def processDay (st : MonthAcc × List (List RunnerChangeRecord))
    (files : List SourceFile) : MonthAcc × List (List RunnerChangeRecord) :=
  let r := runDayFiles st.1 files
  (r.1, if r.2.isEmpty then st.2 else st.2 ++ [dailyPrices r.2])

/-- The day loop over the month's (sorted) day directories. -/
def runMonthDays (days : List (List SourceFile)) :
    MonthAcc × List (List RunnerChangeRecord) :=
  days.foldl processDay (⟨[], [], []⟩, [])

/-- The summary dict returned at lines 302-308. -/
structure Summary where
  year : ℤ
  month : String
  num_markets : ℕ
  num_runners : ℕ
  num_daily_files : ℕ
deriving DecidableEq

/-- The tables `process_month` hands to the writer, plus the summary.
Empty tables are simply not written (writer is external). -/
structure MonthOutput where
  market_ref : List MarketRefRow
  runner_ref : List RunnerRefRow
  market_timeline : List MarketRecord
  runner_status : List RunnerStaticRecord
  daily_tables : List (List RunnerChangeRecord)
  summary : Summary
deriving DecidableEq

/-- Lines 185-308: `process_month`. `monthDir = none` models a missing
`base/{year}/{month}` directory (line 200: bare `return`, i.e. `None`).
`num_daily_files` counts the daily parquet files written into a fresh
output directory, one per day with a nonempty price buffer. -/
def process_month (year : ℤ) (month : String)
    (monthDir : Option (List (List SourceFile))) : Option MonthOutput :=
  match monthDir with
  | none => none
  | some days =>
      let r := runMonthDays days
      let refs := create_reference_tables r.1.all_raw_dfs
      some
        { market_ref := refs.1
          runner_ref := refs.2
          market_timeline := combined_markets r.1.all_markets
          runner_status := combined_runner_static r.1.all_runner_static
          daily_tables := r.2
          summary :=
            { year := year
              month := month
              num_markets := refs.1.length
              num_runners := refs.2.length
              num_daily_files := r.2.length } }

/-- The raw frame a file contributes to `all_raw_dfs` (line 232), if any. -/
def fileRaw (f : SourceFile) : Option (List RawRecord) :=
  let df := read_betfair_bz2 f.decode
  if df.isEmpty then none else some df

/-- The chunk a file contributes to `all_markets` (line 236), if any. -/
def fileMarkets (f : SourceFile) : Option (List MarketRecord) :=
  let df := read_betfair_bz2 f.decode
  if df.isEmpty then none
  else if f.parseRaises then none
  else
    let m := (parse_betfair_stream df).1
    if m.isEmpty then none else some m

/-- The chunk a file contributes to `all_runner_static` (line 238). -/
def fileRunnerStatic (f : SourceFile) : Option (List RunnerStaticRecord) :=
  let df := read_betfair_bz2 f.decode
  if df.isEmpty then none
  else if f.parseRaises then none
  else
    let rs := (parse_betfair_stream df).2.1
    if rs.isEmpty then none else some rs

/-- The chunk a file contributes to `day_runner_changes` (line 240). -/
def fileChanges (f : SourceFile) : Option (List RunnerChangeRecord) :=
  let df := read_betfair_bz2 f.decode
  if df.isEmpty then none
  else if f.parseRaises then none
  else
    let rc := (parse_betfair_stream df).2.2
    if rc.isEmpty then none else some rc

/-- The daily table flushed for one day's file list, if any (lines 246-256). -/
def dayTable (fs : List SourceFile) : Option (List RunnerChangeRecord) :=
  let drc := fs.filterMap fileChanges
  if drc.isEmpty then none else some (dailyPrices drc)


/-! ### Concrete fixtures for instantiation theorems -/

/-- A market definition fixture: OPEN, not in play, version 1, with the
given event name, market time, and runner list. -/
def sampleDef (en mt : Option JVal) (rs : Option (List RunnerDef)) :
    MarketDefinition :=
  { status := some (JVal.jstr "OPEN"), inPlay := some (JVal.jbool false)
    numberOfActiveRunners := none, totalMatched := none
    version := some (JVal.jnum 1), eventId := none, eventName := en
    eventTypeId := none, name := none, marketType := none, marketTime := mt
    venue := none, countryCode := none, numberOfWinners := none
    runners := rs }

/-- A runner definition fixture with the given removal date value. -/
def sampleRunner (rd : Option JVal) : RunnerDef :=
  { id := some (JVal.jnum 10), name := some (JVal.jstr "A")
    status := some (JVal.jstr "ACTIVE"), removalDate := rd }

/-- A price-change entry fixture. -/
def sampleChange : RunnerChange :=
  { id := some (JVal.jnum 10), ltp := some (JVal.jnum (5 / 2))
    tv := some (JVal.jnum 50), batb := none, batl := none
    spn := none, spf := none }

/-- A MarketDefinitionSnapshot row fixture at the given publish time. -/
def sampleMarketRow (ms : ℤ) : MarketRecord :=
  { market_id := some (JVal.jstr "1.23")
    publish_time := some (PTime.ofMillis ms)
    status := some (JVal.jstr "OPEN"), in_play := some (JVal.jbool false)
    number_of_active_runners := none, total_matched := none
    version := some (JVal.jnum 1) }

/-! ### Properties of keep-first deduplication -/

theorem dedupAux_sublist {α κ : Type} [DecidableEq κ] (key : α → κ) :
    ∀ (l : List α) (seen : List κ), List.Sublist (dedupAux key seen l) l
  | [], _ => List.Sublist.refl _
  | x :: xs, seen => by
      unfold dedupAux
      split
      · exact (dedupAux_sublist key xs seen).cons x
      · exact (dedupAux_sublist key xs _).cons₂ x

theorem key_not_seen_of_mem_dedupAux {α κ : Type} [DecidableEq κ]
    (key : α → κ) :
    ∀ (l : List α) (seen : List κ) (x : α),
      x ∈ dedupAux key seen l → key x ∉ seen
  | [], _, _, hx => absurd hx (List.not_mem_nil _)
  | a :: xs, seen, x, hx => by
      unfold dedupAux at hx
      split at hx
      · exact key_not_seen_of_mem_dedupAux key xs seen x hx
      · rcases List.mem_cons.mp hx with h | h
        · subst h; assumption
        · intro hmem
          exact key_not_seen_of_mem_dedupAux key xs _ x h
            (List.mem_cons_of_mem _ hmem)

theorem dedupAux_keys_nodup {α κ : Type} [DecidableEq κ] (key : α → κ) :
    ∀ (l : List α) (seen : List κ), ((dedupAux key seen l).map key).Nodup
  | [], _ => List.nodup_nil
  | a :: xs, seen => by
      unfold dedupAux
      split
      · exact dedupAux_keys_nodup key xs seen
      · rw [List.map_cons, List.nodup_cons]
        refine ⟨?_, dedupAux_keys_nodup key xs _⟩
        intro hmem
        rcases List.mem_map.mp hmem with ⟨y, hy, hkey⟩
        exact key_not_seen_of_mem_dedupAux key xs _ y hy
          (by rw [hkey]; exact List.mem_cons_self _ _)

theorem mem_keys_dedupAux {α κ : Type} [DecidableEq κ] (key : α → κ) :
    ∀ (l : List α) (seen : List κ) (k : κ),
      k ∈ (dedupAux key seen l).map key ↔ (k ∉ seen ∧ k ∈ l.map key)
  | [], seen, k => by simp [dedupAux]
  | a :: xs, seen, k => by
      unfold dedupAux
      split
      · rw [mem_keys_dedupAux key xs seen k]
        simp only [List.map_cons, List.mem_cons]
        constructor
        · rintro ⟨hns, hmem⟩; exact ⟨hns, Or.inr hmem⟩
        · rintro ⟨hns, h | hmem⟩
          · subst h; exact absurd (by assumption) hns
          · exact ⟨hns, hmem⟩
      · simp only [List.map_cons, List.mem_cons,
          mem_keys_dedupAux key xs (key a :: seen) k]
        constructor
        · rintro (h | ⟨hns, hmem⟩)
          · subst h; exact ⟨by assumption, Or.inl rfl⟩
          · exact ⟨fun hk => hns (Or.inr hk), Or.inr hmem⟩
        · rintro ⟨hns, h | hmem⟩
          · exact Or.inl h
          · by_cases hka : k = key a
            · exact Or.inl hka
            · exact Or.inr ⟨fun h => h.elim hka hns, hmem⟩

theorem find?_of_mem_dedupAux {α κ : Type} [DecidableEq κ] (key : α → κ) :
    ∀ (l : List α) (seen : List κ) (x : α), x ∈ dedupAux key seen l →
      l.find? (fun y => decide (key y = key x)) = some x
  | [], _, _, hx => absurd hx (List.not_mem_nil _)
  | a :: xs, seen, x, hx => by
      unfold dedupAux at hx
      split at hx
      · have hxs := key_not_seen_of_mem_dedupAux key xs seen x hx
        have hne : key a ≠ key x := fun h => hxs (h ▸ (by assumption))
        rw [List.find?_cons_of_neg _ (by simpa using hne)]
        exact find?_of_mem_dedupAux key xs seen x hx
      · rcases List.mem_cons.mp hx with h | h
        · subst h
          exact List.find?_cons_of_pos _ (by simp)
        · have hxs := key_not_seen_of_mem_dedupAux key xs _ x h
          have hne : key a ≠ key x := fun hk =>
            hxs (hk ▸ List.mem_cons_self _ _)
          rw [List.find?_cons_of_neg _ (by simpa using hne)]
          exact find?_of_mem_dedupAux key xs _ x h

theorem dedupKeepFirst_sublist {α κ : Type} [DecidableEq κ] (key : α → κ)
    (l : List α) : List.Sublist (dedupKeepFirst key l) l :=
  dedupAux_sublist key l []

theorem dedupKeepFirst_keys_nodup {α κ : Type} [DecidableEq κ] (key : α → κ)
    (l : List α) : ((dedupKeepFirst key l).map key).Nodup :=
  dedupAux_keys_nodup key l []

theorem mem_keys_dedupKeepFirst {α κ : Type} [DecidableEq κ] (key : α → κ)
    (l : List α) (k : κ) :
    k ∈ (dedupKeepFirst key l).map key ↔ k ∈ l.map key := by
  rw [dedupKeepFirst, mem_keys_dedupAux]
  simp

theorem find?_of_mem_dedupKeepFirst {α κ : Type} [DecidableEq κ]
    (key : α → κ) (l : List α) (x : α) (hx : x ∈ dedupKeepFirst key l) :
    l.find? (fun y => decide (key y = key x)) = some x :=
  find?_of_mem_dedupAux key l [] x hx

/-! ### Properties of the stable sort -/

theorem keyLe_trans {α : Type} (key : α → RowKey) :
    ∀ a b c, keyLe key a b → keyLe key b c → keyLe key a c := by
  intro a b c hab hbc
  simp only [keyLe, decide_eq_true_eq] at *
  exact le_trans hab hbc

theorem keyLe_total {α : Type} (key : α → RowKey) :
    ∀ a b, keyLe key a b || keyLe key b a := by
  intro a b
  simp only [keyLe, Bool.or_eq_true, decide_eq_true_eq]
  exact le_total (key a) (key b)

theorem sortOn_perm {α : Type} (key : α → RowKey) (l : List α) :
    List.Perm (sortOn key l) l :=
  List.mergeSort_perm l _

theorem sortOn_sorted {α : Type} (key : α → RowKey) (l : List α) :
    (sortOn key l).Pairwise fun a b => key a ≤ key b :=
  (List.sorted_mergeSort (keyLe_trans key) (keyLe_total key) l).imp
    fun hab => by simpa [keyLe] using hab

theorem sortOn_filter_eq {α : Type} (key : α → RowKey) (l : List α)
    (p : α → Bool) (hp : ∀ x y, p x = true → p y = true → key x = key y) :
    (sortOn key l).filter p = l.filter p := by
  have hpair : (l.filter p).Pairwise fun a b => keyLe key a b = true :=
    List.pairwise_of_forall_mem_list fun a ha b hb => by
      have hk := hp a b (List.of_mem_filter ha) (List.of_mem_filter hb)
      simp [keyLe, hk]
  have hsub : List.Sublist (l.filter p) (sortOn key l) :=
    List.sublist_mergeSort (keyLe_trans key) (keyLe_total key) hpair
      (List.filter_sublist l)
  have hsub2 : List.Sublist (l.filter p) ((sortOn key l).filter p) := by
    have h := List.Sublist.filter p hsub
    simpa [List.filter_filter] using h
  have hlen : ((sortOn key l).filter p).length = (l.filter p).length :=
    ((sortOn_perm key l).filter p).length_eq
  exact (hsub2.eq_of_length hlen.symm).symm

theorem sortOn_singleton {α : Type} (key : α → RowKey) (x : α) :
    sortOn key [x] = [x] := by
  simp [sortOn]

theorem mem_sortOn {α : Type} (key : α → RowKey) (l : List α) (x : α) :
    x ∈ sortOn key l ↔ x ∈ l :=
  (sortOn_perm key l).mem_iff

/-! ### Characterization of the file/day folds -/

theorem foldl_processFile_spec :
    ∀ (files : List SourceFile) (acc : MonthAcc)
      (buf : List (List RunnerChangeRecord)),
      files.foldl processFile (acc, buf) =
        ({ all_markets := acc.all_markets ++ files.filterMap fileMarkets
           all_runner_static :=
             acc.all_runner_static ++ files.filterMap fileRunnerStatic
           all_raw_dfs := acc.all_raw_dfs ++ files.filterMap fileRaw },
         buf ++ files.filterMap fileChanges)
  | [], acc, buf => by simp
  | f :: fs, acc, buf => by
      rw [List.foldl_cons]
      by_cases h1 : (read_betfair_bz2 f.decode).isEmpty
      · simp [processFile, fileMarkets, fileRunnerStatic, fileRaw,
          fileChanges, h1, foldl_processFile_spec fs]
      · by_cases h2 : f.parseRaises
        · simp [processFile, fileMarkets, fileRunnerStatic, fileRaw,
            fileChanges, h1, h2, foldl_processFile_spec fs]
        · by_cases h3 :
            (parse_betfair_stream (read_betfair_bz2 f.decode)).1.isEmpty <;>
          by_cases h4 :
            (parse_betfair_stream (read_betfair_bz2 f.decode)).2.1.isEmpty <;>
          by_cases h5 :
            (parse_betfair_stream (read_betfair_bz2 f.decode)).2.2.isEmpty <;>
          simp [processFile, fileMarkets, fileRunnerStatic, fileRaw,
            fileChanges, h1, h2, h3, h4, h5, foldl_processFile_spec fs]

theorem runDayFiles_spec (acc : MonthAcc) (files : List SourceFile) :
    runDayFiles acc files =
      ({ all_markets := acc.all_markets ++ files.filterMap fileMarkets
         all_runner_static :=
           acc.all_runner_static ++ files.filterMap fileRunnerStatic
         all_raw_dfs := acc.all_raw_dfs ++ files.filterMap fileRaw },
       files.filterMap fileChanges) := by
  simpa [runDayFiles] using foldl_processFile_spec files acc []

theorem foldl_processDay_spec :
    ∀ (days : List (List SourceFile)) (acc : MonthAcc)
      (tables : List (List RunnerChangeRecord)),
      days.foldl processDay (acc, tables) =
        ({ all_markets := acc.all_markets ++
             (days.map fun fs => fs.filterMap fileMarkets).flatten
           all_runner_static := acc.all_runner_static ++
             (days.map fun fs => fs.filterMap fileRunnerStatic).flatten
           all_raw_dfs := acc.all_raw_dfs ++
             (days.map fun fs => fs.filterMap fileRaw).flatten },
         tables ++ days.filterMap dayTable)
  | [], acc, tables => by simp
  | d :: ds, acc, tables => by
      rw [List.foldl_cons]
      by_cases h : (d.filterMap fileChanges).isEmpty <;>
      simp [processDay, runDayFiles_spec, dayTable, h,
        foldl_processDay_spec ds, List.append_assoc]

theorem runMonthDays_spec (days : List (List SourceFile)) :
    runMonthDays days =
      ({ all_markets := (days.map fun fs => fs.filterMap fileMarkets).flatten
         all_runner_static :=
           (days.map fun fs => fs.filterMap fileRunnerStatic).flatten
         all_raw_dfs := (days.map fun fs => fs.filterMap fileRaw).flatten },
       days.filterMap dayTable) := by
  simpa [runMonthDays] using foldl_processDay_spec days ⟨[], [], []⟩ []

/-! ### Membership helpers for the metadata scans -/

theorem mem_marketMetaRows_of_mem_df (dfs : List (List RawRecord))
    (df : List RawRecord) (hdf : df ∈ dfs) (row : MarketRefRow)
    (hr : row ∈ marketMetaRows [df]) : row ∈ marketMetaRows dfs := by
  simp only [marketMetaRows, List.mem_flatten, List.mem_map,
    List.flatten_cons, List.flatten_nil, List.append_nil] at hr ⊢
  obtain ⟨l, ⟨r, hrrec, rfl⟩, hrow⟩ := hr
  exact ⟨_, ⟨r, ⟨df, hdf, hrrec⟩, rfl⟩, hrow⟩

theorem mem_runnerMetaRows_of_mem_df (dfs : List (List RawRecord))
    (df : List RawRecord) (hdf : df ∈ dfs) (row : RunnerRefRow)
    (hr : row ∈ runnerMetaRows [df]) : row ∈ runnerMetaRows dfs := by
  simp only [runnerMetaRows, List.mem_flatten, List.mem_map,
    List.flatten_cons, List.flatten_nil, List.append_nil] at hr ⊢
  obtain ⟨l, ⟨r, hrrec, rfl⟩, hrow⟩ := hr
  exact ⟨_, ⟨r, ⟨df, hdf, hrrec⟩, rfl⟩, hrow⟩

/-! ### The claims -/

/-- C5: `parse_betfair_stream` coerces the `mc` field to a list of blocks
whether the source representation was absent, null, a single object, or a
list, with absent and null each treated as an empty list; a record whose
coerced block list is empty, and a block carrying neither a definition nor
a change list, each contribute zero rows to all three output streams. All
the functions involved are total, so no input raises. -/
theorem c5_mc_coercion_and_empty_inputs :
    (coerceMc McField.absent = [] ∧ coerceMc McField.null = []) ∧
    (∀ b, coerceMc (McField.single b) = [b]) ∧
    (∀ bs, coerceMc (McField.many bs) = bs) ∧
    (∀ r : RawRecord, coerceMc r.mc = [] →
       recordRows r = ([], [], []) ∧ parse_betfair_stream [r] = ([], [], [])) ∧
    (∀ (pub : Option PTime) (b : MarketChangeBlock),
       b.marketDefinition = none → b.rc = none →
       marketRowsOfBlock pub b = [] ∧ runnerRowsOfBlock pub b = [] ∧
       changeRowsOfBlock pub b = []) := by
  refine ⟨⟨rfl, rfl⟩, fun b => rfl, fun bs => rfl, ?_, ?_⟩
  · intro r h
    refine ⟨by simp [recordRows, h], ?_⟩
    simp [parse_betfair_stream, recordRows, h]
  · intro pub b h1 h2
    exact ⟨by simp [marketRowsOfBlock, h1], by simp [runnerRowsOfBlock, h1],
      by simp [changeRowsOfBlock, h2]⟩

/-- C5 instantiation: a record with a null `mc` cell and a block with
neither definition nor changes contribute zero rows. -/
theorem c5_witness :
    (recordRows ⟨some 5, McField.null⟩ = ([], [], []) ∧
       parse_betfair_stream [⟨some 5, McField.null⟩] = ([], [], [])) ∧
    marketRowsOfBlock none ⟨some (JVal.jstr "1.23"), none, none⟩ = [] :=
  ⟨c5_mc_coercion_and_empty_inputs.2.2.2.1 ⟨some 5, McField.null⟩ rfl,
   (c5_mc_coercion_and_empty_inputs.2.2.2.2 none
      ⟨some (JVal.jstr "1.23"), none, none⟩ rfl rfl).1⟩

/-- C6: a block carrying a definition or a change list but no
`market_id` still emits the corresponding rows — one market row per
definition, one runner row per nested runner, one change row per `rc`
entry — each with a null `market_id`, rather than being dropped. -/
theorem c6_missing_market_id_still_emits (pub : Option PTime)
    (b : MarketChangeBlock) (hid : b.id = none) :
    (∀ row ∈ marketRowsOfBlock pub b, row.market_id = none) ∧
    (∀ row ∈ runnerRowsOfBlock pub b, row.market_id = none) ∧
    (∀ row ∈ changeRowsOfBlock pub b, row.market_id = none) ∧
    (∀ d, b.marketDefinition = some d → (marketRowsOfBlock pub b).length = 1) ∧
    (∀ d rs, b.marketDefinition = some d → d.runners = some rs →
       (runnerRowsOfBlock pub b).length = rs.length) ∧
    (∀ cs, b.rc = some cs → (changeRowsOfBlock pub b).length = cs.length) := by
  refine ⟨?_, ?_, ?_, ?_, ?_, ?_⟩
  · intro row hrow
    cases h : b.marketDefinition with
    | none => simp [marketRowsOfBlock, h] at hrow
    | some d =>
        simp only [marketRowsOfBlock, h, List.mem_singleton] at hrow
        rw [hrow]
        exact hid
  · intro row hrow
    cases h : b.marketDefinition with
    | none => simp [runnerRowsOfBlock, h] at hrow
    | some d =>
        cases h2 : d.runners with
        | none => simp [runnerRowsOfBlock, h, h2] at hrow
        | some rs =>
            simp only [runnerRowsOfBlock, h, h2, List.mem_map] at hrow
            obtain ⟨r, hr, rfl⟩ := hrow
            exact hid
  · intro row hrow
    cases h : b.rc with
    | none => simp [changeRowsOfBlock, h] at hrow
    | some cs =>
        simp only [changeRowsOfBlock, h, List.mem_map] at hrow
        obtain ⟨c, hc, rfl⟩ := hrow
        exact hid
  · intro d h; simp [marketRowsOfBlock, h]
  · intro d rs h h2; simp [runnerRowsOfBlock, h, h2]
  · intro cs h; simp [changeRowsOfBlock, h]

/-- C6 instantiation: a definition-and-changes block with no id emits one
market row with null `market_id` and one change row per entry. -/
theorem c6_witness :
    (∀ row ∈ marketRowsOfBlock none
        ⟨none, some (sampleDef none none none), some [sampleChange]⟩,
       row.market_id = none) ∧
    (marketRowsOfBlock none
        ⟨none, some (sampleDef none none none), some [sampleChange]⟩).length = 1 ∧
    (changeRowsOfBlock none
        ⟨none, some (sampleDef none none none), some [sampleChange]⟩).length = 1 :=
  by
  refine ⟨(c6_missing_market_id_still_emits none _ rfl).1,
    (c6_missing_market_id_still_emits none _ rfl).2.2.2.1 _ rfl, ?_⟩
  have h := (c6_missing_market_id_still_emits none
    ⟨none, some (sampleDef none none none), some [sampleChange]⟩
    rfl).2.2.2.2.2 [sampleChange] rfl
  simpa using h

/-- C9: a present-but-falsy `removalDate` (e.g. `0` or `""`) yields a null
`removal_date` exactly as an absent field does, and a falsy `marketTime`
yields a null `market_time` the same way: nullness of both timestamps
depends on the truthiness of the source value, not only on its presence. -/
theorem c9_falsy_timestamps_yield_null :
    (∀ v : JVal, v.truthy = false →
       parseRemovalDate (some v) = none ∧ parseRemovalDate none = none ∧
       parseMarketTime (some v) = none ∧ parseMarketTime none = none) ∧
    (∀ v : JVal, parseRemovalDate (some v) =
       if v.truthy then some (PTime.ofVal v) else none) ∧
    (∀ v : JVal, parseMarketTime (some v) =
       if v.truthy then some (PTime.ofVal v) else none) ∧
    (parseRemovalDate (some (JVal.jnum 0)) = none ∧
       parseRemovalDate (some (JVal.jstr "")) = none) ∧
    (∀ (pub : Option PTime) (b : MarketChangeBlock) d rs r,
       b.marketDefinition = some d → d.runners = some rs → r ∈ rs →
       ∃ row ∈ runnerRowsOfBlock pub b,
         row.removal_date = parseRemovalDate r.removalDate ∧
         row.runner_id = r.id) ∧
    (∀ (b : MarketChangeBlock) d, b.marketDefinition = some d →
       ∀ row ∈ marketMetaOfBlock b,
         row.market_time = parseMarketTime d.marketTime) := by
  refine ⟨?_, ?_, ?_, ⟨rfl, rfl⟩, ?_, ?_⟩
  · intro v hv
    simp [parseRemovalDate, parseMarketTime, optTruthy, hv]
  · intro v
    cases hv : v.truthy <;> simp [parseRemovalDate, optTruthy, hv]
  · intro v
    cases hv : v.truthy <;> simp [parseMarketTime, optTruthy, hv]
  · intro pub b d rs r h h2 hr
    refine ⟨{ market_id := b.id, publish_time := pub, runner_id := r.id
              runner_name := r.name, status := r.status
              removal_date := parseRemovalDate r.removalDate }, ?_, rfl, rfl⟩
    simp only [runnerRowsOfBlock, h, h2, List.mem_map]
    exact ⟨r, hr, rfl⟩
  · intro b d h row hrow
    simp only [marketMetaOfBlock, h, List.mem_singleton] at hrow
    rw [hrow]

/-- C9 instantiation: a runner whose `removalDate` is the number `0` is
emitted with a null `removal_date`, as is one with the field absent. -/
theorem c9_witness :
    parseRemovalDate (some (JVal.jnum 0)) = none ∧
    parseRemovalDate (some (JVal.jstr "")) = none ∧
    parseMarketTime (some (JVal.jnum 0)) = none ∧
    parseRemovalDate none = none :=
  ⟨(c9_falsy_timestamps_yield_null.1 (JVal.jnum 0) (by decide)).1,
   (c9_falsy_timestamps_yield_null.1 (JVal.jstr "") (by decide)).1,
   (c9_falsy_timestamps_yield_null.1 (JVal.jnum 0) (by decide)).2.2.1,
   (c9_falsy_timestamps_yield_null.1 (JVal.jnum 0) (by decide)).2.1⟩

/-- C8: `process_month` returns a summary with exactly the fields
`{year, month, num_markets, num_runners, num_daily_files}` when the
month's directory exists, and returns nothing (without raising) when it
is absent. -/
theorem c8_summary_or_skipped (year : ℤ) (month : String) :
    process_month year month none = none ∧
    ∀ days, ∃ out : MonthOutput,
      process_month year month (some days) = some out ∧
      out.summary =
        { year := year, month := month
          num_markets := (create_reference_tables
            (runMonthDays days).1.all_raw_dfs).1.length
          num_runners := (create_reference_tables
            (runMonthDays days).1.all_raw_dfs).2.length
          num_daily_files := (runMonthDays days).2.length } :=
  ⟨rfl, fun days => ⟨_, rfl, rfl⟩⟩

/-- C4: every row emitted by `parse_betfair_stream` takes its `market_id`
from its own enclosing block and its `publish_time` from the value derived
once from its own enclosing record's `pt` field; the output is exactly the
per-record, per-block concatenation, so no row takes either field from a
different block or record. -/
theorem c4_rows_inherit_enclosing_pair (df : List RawRecord) :
    (parse_betfair_stream df =
      ((df.map fun r =>
          ((coerceMc r.mc).map (marketRowsOfBlock (publishTimeOf r))).flatten).flatten,
       (df.map fun r =>
          ((coerceMc r.mc).map (runnerRowsOfBlock (publishTimeOf r))).flatten).flatten,
       (df.map fun r =>
          ((coerceMc r.mc).map (changeRowsOfBlock (publishTimeOf r))).flatten).flatten)) ∧
    (∀ r ∈ df, ∀ b ∈ coerceMc r.mc,
       (∀ row ∈ marketRowsOfBlock (publishTimeOf r) b,
          row.market_id = b.id ∧ row.publish_time = publishTimeOf r) ∧
       (∀ row ∈ runnerRowsOfBlock (publishTimeOf r) b,
          row.market_id = b.id ∧ row.publish_time = publishTimeOf r) ∧
       (∀ row ∈ changeRowsOfBlock (publishTimeOf r) b,
          row.market_id = b.id ∧ row.publish_time = publishTimeOf r)) ∧
    (∀ row ∈ (parse_betfair_stream df).1, ∃ r ∈ df, ∃ b ∈ coerceMc r.mc,
       row ∈ marketRowsOfBlock (publishTimeOf r) b) ∧
    (∀ row ∈ (parse_betfair_stream df).2.1, ∃ r ∈ df, ∃ b ∈ coerceMc r.mc,
       row ∈ runnerRowsOfBlock (publishTimeOf r) b) ∧
    (∀ row ∈ (parse_betfair_stream df).2.2, ∃ r ∈ df, ∃ b ∈ coerceMc r.mc,
       row ∈ changeRowsOfBlock (publishTimeOf r) b) := by
  refine ⟨rfl, ?_, ?_, ?_, ?_⟩
  · intro r _ b _
    refine ⟨?_, ?_, ?_⟩
    · intro row hrow
      cases h : b.marketDefinition with
      | none => simp [marketRowsOfBlock, h] at hrow
      | some d =>
          simp only [marketRowsOfBlock, h, List.mem_singleton] at hrow
          rw [hrow]; exact ⟨rfl, rfl⟩
    · intro row hrow
      cases h : b.marketDefinition with
      | none => simp [runnerRowsOfBlock, h] at hrow
      | some d =>
          cases h2 : d.runners with
          | none => simp [runnerRowsOfBlock, h, h2] at hrow
          | some rs =>
              simp only [runnerRowsOfBlock, h, h2, List.mem_map] at hrow
              obtain ⟨x, hx, rfl⟩ := hrow
              exact ⟨rfl, rfl⟩
    · intro row hrow
      cases h : b.rc with
      | none => simp [changeRowsOfBlock, h] at hrow
      | some cs =>
          simp only [changeRowsOfBlock, h, List.mem_map] at hrow
          obtain ⟨x, hx, rfl⟩ := hrow
          exact ⟨rfl, rfl⟩
  · intro row hrow
    simp only [parse_betfair_stream, recordRows, List.mem_flatten,
      List.mem_map] at hrow
    obtain ⟨l, ⟨r, hr, rfl⟩, hrow⟩ := hrow
    obtain ⟨l2, hb, hrow⟩ := List.mem_flatten.mp hrow
    obtain ⟨b2, hb2, rfl⟩ := List.mem_map.mp hb
    exact ⟨r, hr, b2, hb2, hrow⟩
  · intro row hrow
    simp only [parse_betfair_stream, recordRows, List.mem_flatten,
      List.mem_map] at hrow
    obtain ⟨l, ⟨r, hr, rfl⟩, hrow⟩ := hrow
    obtain ⟨l2, hb, hrow⟩ := List.mem_flatten.mp hrow
    obtain ⟨b2, hb2, rfl⟩ := List.mem_map.mp hb
    exact ⟨r, hr, b2, hb2, hrow⟩
  · intro row hrow
    simp only [parse_betfair_stream, recordRows, List.mem_flatten,
      List.mem_map] at hrow
    obtain ⟨l, ⟨r, hr, rfl⟩, hrow⟩ := hrow
    obtain ⟨l2, hb, hrow⟩ := List.mem_flatten.mp hrow
    obtain ⟨b2, hb2, rfl⟩ := List.mem_map.mp hb
    exact ⟨r, hr, b2, hb2, hrow⟩

/-- C4 instantiation at the spec's example scenario: the definition row of
record 1 carries that record's block id and publish time. -/
theorem c4_witness :
    ∀ row ∈ marketRowsOfBlock
        (publishTimeOf ⟨some 1700000000000,
          McField.many [⟨some (JVal.jstr "1.23"),
            some (sampleDef none none (some [sampleRunner none])), none⟩]⟩)
        ⟨some (JVal.jstr "1.23"),
          some (sampleDef none none (some [sampleRunner none])), none⟩,
      row.market_id = some (JVal.jstr "1.23") ∧
      row.publish_time = some (PTime.ofMillis 1700000000000) := by
  intro row hrow
  have h := ((c4_rows_inherit_enclosing_pair
    [⟨some 1700000000000, McField.many [⟨some (JVal.jstr "1.23"),
        some (sampleDef none none (some [sampleRunner none])), none⟩]⟩]).2.1
    ⟨some 1700000000000, McField.many [⟨some (JVal.jstr "1.23"),
        some (sampleDef none none (some [sampleRunner none])), none⟩]⟩
    (by simp)
    ⟨some (JVal.jstr "1.23"),
      some (sampleDef none none (some [sampleRunner none])), none⟩
    (by simp [coerceMc])).1 row hrow
  exact h

/-- C1: the reference tables contain exactly one row per key
(`market_id` for MarketReference, `(market_id, runner_id)` for
RunnerReference) — the key sets coincide with those of the full metadata
scan — and each kept row is, whole, the first row for its key in
file/record traversal order, so later occurrences are discarded entirely
and never merged or backfilled. -/
theorem c1_reference_tables_first_wins (dfs : List (List RawRecord)) :
    (((create_reference_tables dfs).1.map fun r => r.market_id).Nodup) ∧
    (∀ k, (k ∈ (create_reference_tables dfs).1.map fun r => r.market_id) ↔
       k ∈ (marketMetaRows dfs).map fun r => r.market_id) ∧
    (∀ row ∈ (create_reference_tables dfs).1,
       (marketMetaRows dfs).find?
         (fun y => decide (y.market_id = row.market_id)) = some row) ∧
    (((create_reference_tables dfs).2.map
        fun r => (r.market_id, r.runner_id)).Nodup) ∧
    (∀ k, (k ∈ (create_reference_tables dfs).2.map
        fun r => (r.market_id, r.runner_id)) ↔
       k ∈ (runnerMetaRows dfs).map fun r => (r.market_id, r.runner_id)) ∧
    (∀ row ∈ (create_reference_tables dfs).2,
       (runnerMetaRows dfs).find?
         (fun y => decide ((y.market_id, y.runner_id) =
           (row.market_id, row.runner_id))) = some row) := by
  refine ⟨?_, ?_, ?_, ?_, ?_, ?_⟩
  · exact dedupKeepFirst_keys_nodup _ (marketMetaRows dfs)
  · intro k; exact mem_keys_dedupKeepFirst _ (marketMetaRows dfs) k
  · intro row hrow
    have hrow2 : row ∈ dedupKeepFirst (fun r : MarketRefRow => r.market_id)
        (marketMetaRows dfs) := hrow
    exact find?_of_mem_dedupKeepFirst (fun r : MarketRefRow => r.market_id)
      (marketMetaRows dfs) row hrow2
  · exact dedupKeepFirst_keys_nodup _ (runnerMetaRows dfs)
  · intro k; exact mem_keys_dedupKeepFirst _ (runnerMetaRows dfs) k
  · intro row hrow
    have hrow2 : row ∈ dedupKeepFirst
        (fun r : RunnerRefRow => (r.market_id, r.runner_id))
        (runnerMetaRows dfs) := hrow
    exact find?_of_mem_dedupKeepFirst
      (fun r : RunnerRefRow => (r.market_id, r.runner_id))
      (runnerMetaRows dfs) row hrow2

/-- C1 instantiation (spec §8 test): two definition blocks for market
"1.23" whose event names differ — the reference row is, whole, the first
one in traversal order. -/
theorem c1_witness :
    (marketMetaRows
        [[⟨none, McField.single ⟨some (JVal.jstr "1.23"),
            some (sampleDef (some (JVal.jstr "First")) none none), none⟩⟩,
          ⟨none, McField.single ⟨some (JVal.jstr "1.23"),
            some (sampleDef (some (JVal.jstr "Second")) none none), none⟩⟩]]).find?
      (fun y => decide (y.market_id = some (JVal.jstr "1.23"))) =
    some ⟨some (JVal.jstr "1.23"), none, some (JVal.jstr "First"), none, none,
      none, none, none, none, none⟩ :=
  (c1_reference_tables_first_wins
    [[⟨none, McField.single ⟨some (JVal.jstr "1.23"),
        some (sampleDef (some (JVal.jstr "First")) none none), none⟩⟩,
      ⟨none, McField.single ⟨some (JVal.jstr "1.23"),
        some (sampleDef (some (JVal.jstr "Second")) none none), none⟩⟩]]).2.2.1
    ⟨some (JVal.jstr "1.23"), none, some (JVal.jstr "First"), none, none,
      none, none, none, none, none⟩ (by decide)

/-- C2: after the monthly deduplication step, no two market-timeline rows
share `(market_id, status, in_play, version)` and no two runner-status
rows share `(market_id, runner_id, status)`; each kept row is the first of
its key in traversal order, and both tables are sorted by
`(market_id, publish_time)`. -/
theorem c2_monthly_dedup_and_sort (ams : List (List MarketRecord))
    (ars : List (List RunnerStaticRecord)) :
    (((combined_markets ams).map mDedupKey).Nodup) ∧
    (∀ row ∈ combined_markets ams,
       (ams.flatten).find? (fun y => decide (mDedupKey y = mDedupKey row)) =
         some row) ∧
    ((combined_markets ams).Pairwise fun a b =>
       MarketRecord.sortKey a ≤ MarketRecord.sortKey b) ∧
    (((combined_runner_static ars).map rDedupKey).Nodup) ∧
    (∀ row ∈ combined_runner_static ars,
       (ars.flatten).find? (fun y => decide (rDedupKey y = rDedupKey row)) =
         some row) ∧
    ((combined_runner_static ars).Pairwise fun a b =>
       RunnerStaticRecord.sortKey a ≤ RunnerStaticRecord.sortKey b) := by
  have hm :
      (((combined_markets ams).map mDedupKey).Nodup) ∧
      (∀ row ∈ combined_markets ams,
         (ams.flatten).find? (fun y => decide (mDedupKey y = mDedupKey row)) =
           some row) ∧
      ((combined_markets ams).Pairwise fun a b =>
         MarketRecord.sortKey a ≤ MarketRecord.sortKey b) := by
    by_cases hj : (ams.flatten).isEmpty
    · refine ⟨?_, ?_, ?_⟩ <;> simp [combined_markets, hj]
    · have heq : combined_markets ams =
          sortOn MarketRecord.sortKey (dedupKeepFirst mDedupKey ams.flatten) := by
        simp [combined_markets, hj]
      refine ⟨?_, ?_, ?_⟩
      · rw [heq]
        exact (((sortOn_perm MarketRecord.sortKey _).map mDedupKey).symm).nodup
          (dedupKeepFirst_keys_nodup mDedupKey ams.flatten)
      · intro row hrow
        rw [heq, mem_sortOn] at hrow
        exact find?_of_mem_dedupKeepFirst mDedupKey ams.flatten row hrow
      · rw [heq]; exact sortOn_sorted _ _
  have hr :
      (((combined_runner_static ars).map rDedupKey).Nodup) ∧
      (∀ row ∈ combined_runner_static ars,
         (ars.flatten).find? (fun y => decide (rDedupKey y = rDedupKey row)) =
           some row) ∧
      ((combined_runner_static ars).Pairwise fun a b =>
         RunnerStaticRecord.sortKey a ≤ RunnerStaticRecord.sortKey b) := by
    by_cases hj : (ars.flatten).isEmpty
    · refine ⟨?_, ?_, ?_⟩ <;> simp [combined_runner_static, hj]
    · have heq : combined_runner_static ars =
          sortOn RunnerStaticRecord.sortKey
            (dedupKeepFirst rDedupKey ars.flatten) := by
        simp [combined_runner_static, hj]
      refine ⟨?_, ?_, ?_⟩
      · rw [heq]
        exact (((sortOn_perm RunnerStaticRecord.sortKey _).map rDedupKey).symm).nodup
          (dedupKeepFirst_keys_nodup rDedupKey ars.flatten)
      · intro row hrow
        rw [heq, mem_sortOn] at hrow
        exact find?_of_mem_dedupKeepFirst rDedupKey ars.flatten row hrow
      · rw [heq]; exact sortOn_sorted _ _
  exact ⟨hm.1, hm.2.1, hm.2.2, hr.1, hr.2.1, hr.2.2⟩

/-- C2 instantiation: two market rows equal on the dedup key but with
different publish times — the kept row is the first in traversal order. -/
theorem c2_witness :
    ([[sampleMarketRow 1, sampleMarketRow 2]].flatten).find?
      (fun y => decide (mDedupKey y = mDedupKey (sampleMarketRow 1))) =
    some (sampleMarketRow 1) := by
  have h1 : dedupKeepFirst mDedupKey [sampleMarketRow 1, sampleMarketRow 2] =
      [sampleMarketRow 1] := by decide
  have h2 : combined_markets [[sampleMarketRow 1, sampleMarketRow 2]] =
      [sampleMarketRow 1] := by
    unfold combined_markets
    simp only [List.flatten_cons, List.flatten_nil, List.append_nil, h1]
    simp [sortOn_singleton]
  exact (c2_monthly_dedup_and_sort [[sampleMarketRow 1, sampleMarketRow 2]]
    []).2.1 (sampleMarketRow 1) (by rw [h2]; exact List.mem_singleton_self _)

/-- C3: the flushed daily price table is the concatenation of the day's
collected chunks sorted ascending by `(market_id, publish_time)`, and the
sort is stable on ties: rows with equal `(market_id, publish_time)` keep
their relative order from the concatenated input. -/
theorem c3_daily_flush_sorted_stable (chunks : List (List RunnerChangeRecord))
    (m : Option JVal) (p : Option PTime) :
    List.Perm (dailyPrices chunks) chunks.flatten ∧
    ((dailyPrices chunks).Pairwise fun a b =>
       RunnerChangeRecord.sortKey a ≤ RunnerChangeRecord.sortKey b) ∧
    ((dailyPrices chunks).filter
        (fun x => decide (x.market_id = m ∧ x.publish_time = p)) =
      (chunks.flatten).filter
        (fun x => decide (x.market_id = m ∧ x.publish_time = p))) := by
  refine ⟨sortOn_perm _ _, sortOn_sorted _ _, ?_⟩
  apply sortOn_filter_eq
  intro x y hx hy
  simp only [decide_eq_true_eq] at hx hy
  simp [RunnerChangeRecord.sortKey, hx.1, hx.2, hy.1, hy.2]

/-- C7: `read_betfair_bz2` returns the decoded records, or an empty frame
when the source is unreadable (the exception is caught, not re-raised);
within the month loop a file whose decode yields nothing drops out of the
run entirely, a file whose parse raises contributes zero rows to every
event stream, and in both cases the remaining files of the day and month
are processed unchanged. -/
theorem c7_per_file_failures_isolated :
    (∀ msg, read_betfair_bz2 (DecodeOutcome.failed msg) = []) ∧
    (∀ rs, read_betfair_bz2 (DecodeOutcome.decoded rs) = rs) ∧
    (∀ (pre post : List (List SourceFile)) (fs1 fs2 : List SourceFile)
       (f : SourceFile), read_betfair_bz2 f.decode = [] →
       runMonthDays (pre ++ (fs1 ++ f :: fs2) :: post) =
         runMonthDays (pre ++ (fs1 ++ fs2) :: post)) ∧
    (∀ (pre post : List (List SourceFile)) (fs1 fs2 : List SourceFile)
       (f : SourceFile), f.parseRaises = true →
       (fileMarkets f = none ∧ fileRunnerStatic f = none ∧
          fileChanges f = none) ∧
       (runMonthDays (pre ++ (fs1 ++ f :: fs2) :: post)).1.all_markets =
         (runMonthDays (pre ++ (fs1 ++ fs2) :: post)).1.all_markets ∧
       (runMonthDays (pre ++ (fs1 ++ f :: fs2) :: post)).1.all_runner_static =
         (runMonthDays (pre ++ (fs1 ++ fs2) :: post)).1.all_runner_static ∧
       (runMonthDays (pre ++ (fs1 ++ f :: fs2) :: post)).2 =
         (runMonthDays (pre ++ (fs1 ++ fs2) :: post)).2) := by
  refine ⟨fun msg => rfl, fun rs => rfl, ?_, ?_⟩
  · intro pre post fs1 fs2 f hdf
    have hm : fileMarkets f = none := by simp [fileMarkets, hdf]
    have hrs : fileRunnerStatic f = none := by simp [fileRunnerStatic, hdf]
    have hrc : fileChanges f = none := by simp [fileChanges, hdf]
    have hraw : fileRaw f = none := by simp [fileRaw, hdf]
    rw [runMonthDays_spec, runMonthDays_spec]
    simp [List.filterMap_append, List.filterMap_cons, hm, hrs, hrc, hraw,
      dayTable]
  · intro pre post fs1 fs2 f hpr
    have hm : fileMarkets f = none := by simp [fileMarkets, hpr]
    have hrs : fileRunnerStatic f = none := by simp [fileRunnerStatic, hpr]
    have hrc : fileChanges f = none := by simp [fileChanges, hpr]
    refine ⟨⟨hm, hrs, hrc⟩, ?_, ?_, ?_⟩ <;>
      rw [runMonthDays_spec, runMonthDays_spec] <;>
      simp [List.filterMap_append, List.filterMap_cons, hm, hrs, hrc, dayTable]

/-- C7 instantiation: a month containing a single unreadable file equals
the month with that file absent. -/
theorem c7_witness :
    runMonthDays [[⟨DecodeOutcome.failed "boom", false⟩]] =
      runMonthDays [[]] :=
  c7_per_file_failures_isolated.2.2.1 [] [] [] []
    ⟨DecodeOutcome.failed "boom", false⟩ rfl

/-- C10: a file whose decode succeeds but whose normalization raises is
still retained in the month's raw-record set — it was appended before the
parse — so its definition blocks still feed the reference tables, while it
contributes zero rows to all three event streams. -/
theorem c10_parse_failure_retains_raw (pre post : List (List SourceFile))
    (fs1 fs2 : List SourceFile) (f : SourceFile)
    (hdf : read_betfair_bz2 f.decode ≠ []) (hpr : f.parseRaises = true) :
    (read_betfair_bz2 f.decode ∈
       (runMonthDays (pre ++ (fs1 ++ f :: fs2) :: post)).1.all_raw_dfs) ∧
    (fileMarkets f = none ∧ fileRunnerStatic f = none ∧
       fileChanges f = none) ∧
    (∀ k, (k ∈ (marketMetaRows [read_betfair_bz2 f.decode]).map
          fun r => r.market_id) →
       k ∈ (create_reference_tables
          (runMonthDays (pre ++ (fs1 ++ f :: fs2) :: post)).1.all_raw_dfs).1.map
          fun r => r.market_id) ∧
    (∀ k, (k ∈ (runnerMetaRows [read_betfair_bz2 f.decode]).map
          fun r => (r.market_id, r.runner_id)) →
       k ∈ (create_reference_tables
          (runMonthDays (pre ++ (fs1 ++ f :: fs2) :: post)).1.all_raw_dfs).2.map
          fun r => (r.market_id, r.runner_id)) := by
  have hraw : fileRaw f = some (read_betfair_bz2 f.decode) := by
    have hne : (read_betfair_bz2 f.decode).isEmpty = false := by
      cases h : read_betfair_bz2 f.decode with
      | nil => exact absurd h hdf
      | cons a l => rfl
    simp [fileRaw, hne]
  have hmem : read_betfair_bz2 f.decode ∈
      (runMonthDays (pre ++ (fs1 ++ f :: fs2) :: post)).1.all_raw_dfs := by
    rw [runMonthDays_spec]
    refine List.mem_flatten.mpr ⟨(fs1 ++ f :: fs2).filterMap fileRaw, ?_, ?_⟩
    · exact List.mem_map.mpr ⟨fs1 ++ f :: fs2, by simp, rfl⟩
    · rw [List.filterMap_append]
      refine List.mem_append.mpr (Or.inr ?_)
      rw [List.filterMap_cons, hraw]
      exact List.mem_cons_self _ _
  refine ⟨hmem,
    ⟨by simp [fileMarkets, hpr], by simp [fileRunnerStatic, hpr],
     by simp [fileChanges, hpr]⟩, ?_, ?_⟩
  · intro k hk
    obtain ⟨row, hrow, rfl⟩ := List.mem_map.mp hk
    have hmem2 := mem_marketMetaRows_of_mem_df
      (runMonthDays (pre ++ (fs1 ++ f :: fs2) :: post)).1.all_raw_dfs
      (read_betfair_bz2 f.decode) hmem row hrow
    exact (mem_keys_dedupKeepFirst (fun r : MarketRefRow => r.market_id)
      (marketMetaRows
        (runMonthDays (pre ++ (fs1 ++ f :: fs2) :: post)).1.all_raw_dfs)
      row.market_id).mpr (List.mem_map.mpr ⟨row, hmem2, rfl⟩)
  · intro k hk
    obtain ⟨row, hrow, rfl⟩ := List.mem_map.mp hk
    have hmem2 := mem_runnerMetaRows_of_mem_df
      (runMonthDays (pre ++ (fs1 ++ f :: fs2) :: post)).1.all_raw_dfs
      (read_betfair_bz2 f.decode) hmem row hrow
    exact (mem_keys_dedupKeepFirst
      (fun r : RunnerRefRow => (r.market_id, r.runner_id))
      (runnerMetaRows
        (runMonthDays (pre ++ (fs1 ++ f :: fs2) :: post)).1.all_raw_dfs)
      (row.market_id, row.runner_id)).mpr (List.mem_map.mpr ⟨row, hmem2, rfl⟩)

/-- C10 instantiation: a decodable file with a definition block for market
"1.23" whose parse raises — the market still reaches the MarketReference
key set. -/
theorem c10_witness :
    some (JVal.jstr "1.23") ∈
      (create_reference_tables
        (runMonthDays [[⟨DecodeOutcome.decoded
          [⟨none, McField.single ⟨some (JVal.jstr "1.23"),
            some (sampleDef none none none), none⟩⟩],
          true⟩]]).1.all_raw_dfs).1.map fun r => r.market_id :=
  (c10_parse_failure_retains_raw [] [] [] []
    ⟨DecodeOutcome.decoded
      [⟨none, McField.single ⟨some (JVal.jstr "1.23"),
        some (sampleDef none none none), none⟩⟩], true⟩
    (by decide) rfl).2.2.1 (some (JVal.jstr "1.23")) (by decide)
